import Mathlib

/-!
Verification of the functional-test runner in `pts/test/functional.py`
(class `SkirtTestSuite` and function `reportTestCase`).

The development shallowly embeds:
* the case-discovery logic of `SkirtTestSuite.__init__` over an abstract
  filesystem (paths are lists of name components),
* the workspace preparation `SkirtTestSuite.clean`,
* the scheduler loop of `SkirtTestSuite.perform` as a pure pass function on an
  explicit loop state, driven by an environment describing the behaviour of the
  external simulation handles,
* the classifier `reportTestCase`, and
* the consolidated-report construction at the end of `perform`.

The behaviour of the external `pts.simulation` handles (`Skirt.isRunning`,
`sim.isRunning`, `sim.status`) is not part of the sources; it is modelled from
the spec: a handle launched at pass `t` is observed running at exactly the
polls `t, t+1, ..., t + dur - 1` and reports a fixed terminal status string
afterwards.
-/

/-- Paths are modelled as lists of name components. -/
abbrev FsPath := List String

-- ---------------------------------------------------------------------------
-- reportTestCase (functional.py lines 217-231)
-- ---------------------------------------------------------------------------

/-- Embedding of `reportTestCase(sim)`.  The argument `outDirPath` stands for
`sim.outDirPath()` and `status` for `sim.status()`.  The result is the written
report file (its path and full content) paired with the returned status
keyword. -/
def reportTestCase (outDirPath : FsPath) (status : String) :
    (FsPath × String) × String :=
  if status ≠ "Finished" then
    ((outDirPath ++ ["_testreport.txt"], "Crashed\n"), "Crashed")
  else
    ((outDirPath ++ ["_testreport.txt"], "Succeeded\n"), "Succeeded")

-- ---------------------------------------------------------------------------
-- Scheduler loop state (perform, functional.py lines 148-185)
-- ---------------------------------------------------------------------------

/-- An in-flight simulation handle: the index of its test case in the
discovery-ordered list, and the pass at which it was launched. -/
structure Sim where
  caseIdx : Nat
  startPass : Nat
deriving DecidableEq, Repr

/-- Modelled from the spec: the environment drives the external simulation
executions.  `dur c` is the number of scheduler passes during which the handle
for case `c` is observed running after its launch, `finalStatus c` is the
terminal status string it reports afterwards (`sim.status()`), and `outDir c`
is the output directory of case `c` (`sim.outDirPath()`). -/
structure Env where
  dur : Nat → Nat
  finalStatus : Nat → String
  outDir : Nat → FsPath

/-- Modelled from the spec: `sim.isRunning()` as observed at pass `t` for a
handle launched at pass `startPass` running for `dur` passes. -/
def simRunning (env : Env) (t : Nat) (s : Sim) : Bool :=
  decide (t < s.startPass + env.dur s.caseIdx)

/-- Modelled from the spec: `skirt.isRunning()` — a SKIRT execution context is
running exactly when the last simulation it launched (if any) is running. -/
def skirtRunning (env : Env) (t : Nat) : Option Sim → Bool
  | none => false
  | some s => simRunning env t s

/-- The state of the scheduler loop in `perform`.  The fields `dispatched`
(sequence of case indices popped from the pending queue, in pop order) and
`reports` (per-case report results written by `reportTestCase`, in completion
order) are instrumentation recording the observable history of the loop; the
remaining fields are the Python locals `cases`, `sims`, `skirts`, `numDone`,
`statistics`, `numTotal`, the pass counter, and the loop control flags. -/
structure LoopState where
  cases : List Nat
  sims : List Sim
  skirts : List (Option Sim)
  numDone : Nat
  statistics : List (String × Nat)
  numTotal : Nat
  dispatched : List Nat
  reports : List (Nat × String)
  t : Nat
  exited : Bool
  slept : Bool
deriving Repr

/-- Python dict update `statistics[status] += 1` with default 0, preserving
insertion order of keys. -/
def bumpStat : List (String × Nat) → String → List (String × Nat)
  | [], k => [(k, 1)]
  | (k0, v) :: rest, k =>
    if k0 = k then (k0, v + 1) :: rest else (k0, v) :: bumpStat rest k

/-- Sum of all counts recorded in the statistics mapping. -/
def statSum (l : List (String × Nat)) : Nat :=
  (l.map Prod.snd).sum

/-- Result of the dispatch phase: the updated slot list, pending queue,
in-flight list, and dispatch trace. -/
structure DispatchResult where
  skirts : List (Option Sim)
  cases : List Nat
  sims : List Sim
  dispatched : List Nat

/-- The dispatch loop (lines 160-164): for each execution context in order, if
it is not running and the pending queue is non-empty, pop the front case and
launch it. -/
def dispatchGo (env : Env) (t : Nat) :
    List (Option Sim) → List Nat → List Sim → List Nat → DispatchResult
  | [], cases, sims, disp => ⟨[], cases, sims, disp⟩
  | slot :: rest, cases, sims, disp =>
    if skirtRunning env t slot then
      let r := dispatchGo env t rest cases sims disp
      ⟨slot :: r.skirts, r.cases, r.sims, r.dispatched⟩
    else
      match cases with
      | [] =>
        let r := dispatchGo env t rest [] sims disp
        ⟨slot :: r.skirts, r.cases, r.sims, r.dispatched⟩
      | c :: cs =>
        let r := dispatchGo env t rest cs (sims ++ [⟨c, t⟩]) (disp ++ [c])
        ⟨some ⟨c, t⟩ :: r.skirts, r.cases, r.sims, r.dispatched⟩

/-- The dispatch phase of one pass of the scheduler loop. -/
def dispatchPhase (env : Env) (s : LoopState) : LoopState :=
  let r := dispatchGo env s.t s.skirts s.cases s.sims s.dispatched
  { s with skirts := r.skirts, cases := r.cases, sims := r.sims,
           dispatched := r.dispatched }

/-- The poll scan (lines 169-178): find the first in-flight simulation that is
no longer running; return it together with the remaining in-flight list. -/
def pollGo (env : Env) (t : Nat) : List Sim → Option (Sim × List Sim)
  | [] => none
  | sim :: rest =>
    if simRunning env t sim then
      match pollGo env t rest with
      | none => none
      | some (f, rest2) => some (f, sim :: rest2)
    else
      some (sim, rest)

/-- The poll-and-report phase of one pass: at most one completed simulation is
finalized (verified via `reportTestCase`, counted into the statistics, recorded
in the report trace, and removed from the in-flight list). -/
def pollPhase (env : Env) (s : LoopState) : LoopState :=
  match pollGo env s.t s.sims with
  | none => s
  | some (f, rest) =>
    let r := reportTestCase (env.outDir f.caseIdx) (env.finalStatus f.caseIdx)
    { s with sims := rest,
             numDone := s.numDone + 1,
             statistics := bumpStat s.statistics r.2,
             reports := s.reports ++ [(f.caseIdx, r.2)] }

/-- End of one pass (lines 180-185): the termination check `break`s out of the
loop before the idle backoff is reached, so an exiting pass never sleeps; a
non-exiting pass sleeps exactly when no simulation was finalized during it
(`numDone == oldNumDone`), and the poll clock advances to the next pass. -/
def loopFinish (oldNumDone : Nat) (s2 : LoopState) : LoopState :=
  if s2.numDone = s2.numTotal then
    { s2 with exited := true, slept := false }
  else
    { s2 with t := s2.t + 1, slept := decide (s2.numDone = oldNumDone) }

/-- One pass of the main event loop (lines 158-185): dispatch, poll and report
one, termination check (`break` before any sleep), idle backoff.  An exited
state is frozen. -/
def runPass (env : Env) (s : LoopState) : LoopState :=
  if s.exited then s
  else loopFinish s.numDone (pollPhase env (dispatchPhase env s))

/-- Iterate the scheduler loop for `n` passes. -/
def run (env : Env) (s : LoopState) : Nat → LoopState
  | 0 => s
  | n + 1 => runPass env (run env s n)

/-- The initial loop state of `perform`: the pending queue holds the discovered
cases (as indices in discovery order), `numCores` execution contexts are
allocated with `numCores = min(len(cases), max(cpu_count, 1))`, and all
counters are zero. -/
def initState (cases : List Nat) (cpu : Nat) : LoopState :=
  { cases := cases
    sims := []
    skirts := List.replicate (min cases.length (max cpu 1)) none
    numDone := 0
    statistics := []
    numTotal := cases.length
    dispatched := []
    reports := []
    t := 0
    exited := false
    slept := false }

-- ---------------------------------------------------------------------------
-- Case discovery (SkirtTestSuite.__init__, functional.py lines 92-108)
-- ---------------------------------------------------------------------------

/-- Whether `d` denotes the directory leading to `p`, that is, `d` is an
initial segment of the component list of `p`. -/
def dirLeads (d p : FsPath) : Bool :=
  p.take d.length == d

/-- Last component of a path. -/
def lastName (p : FsPath) : String :=
  p.getLastD ""

/-- Whether a file name carries the case-definition marker extension, that is,
its last four characters are `.ski`. -/
def isSkiName (name : String) : Bool :=
  name.data.drop (name.data.length - 4) == ".ski".data

/-- Embedding of `subSuitePath.rglob("*.ski")`: the files strictly below the
given directory whose name ends in `.ski`. -/
def rglobSki (files : List FsPath) (dir : FsPath) : List FsPath :=
  files.filter (fun p =>
    dirLeads dir p && decide (dir.length < p.length) && isSkiName (lastName p))

/-- Embedding of `len(list(skiPath.parent.glob("*.ski")))`: the number of ski
files in the immediate parent directory of `p`. -/
def countSki (files : List FsPath) (p : FsPath) : Nat :=
  (files.filter (fun q => q.dropLast == p.dropLast && isSkiName (lastName q))).length

/-- Collect the ski files found under each sub-suite path in turn
(the two nested `for` loops at lines 100-103). -/
def collectSki (files : List FsPath) : List FsPath → List FsPath
  | [] => []
  | r :: rs => rglobSki files r ++ collectSki files rs

/-- The canonicalization applied to the collected ski paths: the Python code
accumulates them into a `set` and then applies `sorted`, so the result is the
duplicate-free sorted list of the collected paths. -/
def canonicalSkiList (l : List FsPath) : List FsPath :=
  List.insertionSort (fun a b => a ≤ b) l.dedup

/-- The list of valid ski paths discovered from the given sub-suite paths:
ski files that are the sole ski file in their parent directory, deduplicated
and sorted (lines 99-104). -/
def discoverSkiPaths (files : List FsPath) (roots : List FsPath) : List FsPath :=
  canonicalSkiList
    ((collectSki files roots).filter (fun p => countSki files p == 1))

/-- Embedding of the selector resolution at lines 92-96.  `none` stands for the
Python `None`; the root is selected when the selector is `None`, empty, or
contains a period character (Python substring test `"." in subSuite`), and
otherwise `suitePath.rglob(subSuite)` matches entries strictly below the root
whose trailing components equal the slash-separated selector components. -/
def selectSubSuitePaths (entries : List FsPath) (suitePath : FsPath) :
    Option String → List FsPath
  | none => [suitePath]
  | some s =>
    if s = "" ∨ s.data.contains '.' = true then [suitePath]
    else
      entries.filter (fun p =>
        dirLeads suitePath p && decide (suitePath.length < p.length) &&
          ((p.drop suitePath.length).drop
              ((p.drop suitePath.length).length - (s.splitOn "/").length)
            == s.splitOn "/"))

/-- Embedding of `__init__` from the resolved sub-suite paths onwards: discover
the valid ski paths and raise `UserError` when none are found (lines 99-108). -/
def initSkiPaths (files : List FsPath) (roots : List FsPath) :
    Except String (List FsPath) :=
  let l := discoverSkiPaths files roots
  if l = [] then
    Except.error "No valid test cases found for sub-suite specification"
  else
    Except.ok l

-- ---------------------------------------------------------------------------
-- Workspace preparation (SkirtTestSuite.clean, functional.py lines 114-126)
-- ---------------------------------------------------------------------------

/-- An abstract filesystem: the set of directories and the set of regular
files, each as a list of paths. -/
structure FS where
  dirs : List FsPath
  files : List FsPath
deriving DecidableEq, Repr

/-- Embedding of `mkdir(exist_ok=True)`: create the directory when absent. -/
def mkdirFS (fs : FS) (d : FsPath) : FS :=
  if d ∈ fs.dirs then fs else { fs with dirs := fs.dirs ++ [d] }

/-- Prepare one test case directory (loop body of `clean`): create the `in`,
`out` and `ref` subdirectories next to the ski file as needed, then unlink
every regular file directly inside the `out` subdirectory (subdirectories are
left untouched because of the `is_file` test). -/
def cleanCase (casedir : FsPath) (fs : FS) : FS :=
  let fs1 := mkdirFS (mkdirFS (mkdirFS fs (casedir ++ ["in"]))
                        (casedir ++ ["out"])) (casedir ++ ["ref"])
  { fs1 with files := fs1.files.filter (fun p => !(p.dropLast == casedir ++ ["out"])) }

/-- Embedding of `SkirtTestSuite.clean`: prepare every case directory (the
parent directory of each ski file) in order. -/
def cleanAll (skiPaths : List FsPath) (fs : FS) : FS :=
  match skiPaths with
  | [] => fs
  | sp :: rest => cleanAll rest (cleanCase sp.dropLast fs)

-- ---------------------------------------------------------------------------
-- Consolidated report (perform, functional.py lines 187-211)
-- ---------------------------------------------------------------------------

/-- Count recorded for a status keyword in the statistics mapping
(`statistics[status]`, defaulting to 0 for absent keys, which does not occur
in the program). -/
def lookupCount : List (String × Nat) → String → Nat
  | [], _ => 0
  | (k0, v) :: rest, k => if k0 = k then v else lookupCount rest k

/-- Content of the per-case report written for a case index, read back from
the report trace (the file `out/_testreport.txt` of that case). -/
def lookupReport : List (Nat × String) → Nat → Option String
  | [], _ => none
  | (c, w) :: rest, i => if c = i then some w else lookupReport rest i

/-- The statistics keys in the order produced by `sorted(statistics.keys())`. -/
def sortedKeys (stats : List (String × Nat)) : List String :=
  List.insertionSort (fun a b => a ≤ b) (stats.map Prod.fst)

/-- The relative test name of a ski path: `skipath.relative_to(suitePath).parent`
rendered with slash separators. -/
def testName (suitePath : FsPath) (skiPath : FsPath) : String :=
  String.intercalate "/" ((skiPath.drop suitePath.length).dropLast)

/-- The consolidated test report (lines 193-211) as the full written text:
header, summary with keys sorted lexicographically, separator, one block per
discovered case in discovery order copying that case's report file, and the
closing delimiter line. -/
def consolidatedReport (version skirtpath : String) (suitePath : FsPath)
    (skiPaths : List FsPath) (numTotal : Nat) (stats : List (String × Nat))
    (reports : List (Nat × String)) : String :=
  "Using " ++ version ++ "\n" ++
  "With path " ++ skirtpath ++ "\n" ++
  "Summary for " ++ toString numTotal ++ " test case(s):\n" ++
  String.join ((sortedKeys stats).map
    (fun k => "  " ++ k ++ ": " ++ toString (lookupCount stats k) ++ "\n")) ++
  "---------------\n" ++
  String.join ((List.range skiPaths.length).map
    (fun i => testName suitePath (skiPaths.getD i []) ++ ": " ++
      ((lookupReport reports i).getD "") ++ "\n")) ++
  "---------------\n"

/-- A termination measure for the scheduler loop: pending cases contribute
their duration plus one, in-flight simulations their remaining running time,
plus the number of cases still to finalize. -/
def phi (env : Env) (s : LoopState) : Nat :=
  if s.exited then 0
  else
    (s.numTotal - s.numDone) +
    (s.cases.map (fun c => env.dur c + 1)).sum +
    (s.sims.map (fun sim => (sim.startPass + env.dur sim.caseIdx) - s.t)).sum + 1

/-- The state of the scheduler loop after it has run to completion, obtained by
iterating the pass function for `phi` passes (shown sufficient below). -/
def finalState (env : Env) (cases : List Nat) (cpu : Nat) : LoopState :=
  run env (initState cases cpu) (phi env (initState cases cpu))

/-- The complete report produced by a suite run: run the scheduler loop over
the discovered ski paths (case `i` is the `i`-th ski path in discovery order)
and consolidate the final statistics and per-case report files. -/
def performReport (env : Env) (version skirtpath : String) (suitePath : FsPath)
    (skiPaths : List FsPath) (cpu : Nat) : String :=
  consolidatedReport version skirtpath suitePath skiPaths
    (finalState env (List.range skiPaths.length) cpu).numTotal
    (finalState env (List.range skiPaths.length) cpu).statistics
    (finalState env (List.range skiPaths.length) cpu).reports

-- ---------------------------------------------------------------------------
-- Concrete instances used in witnesses and counterexamples, and proof-side
-- predicates
-- ---------------------------------------------------------------------------

/-- A concrete tree used to refute the raising behaviour asserted by the spec:
directory A contains two ski files, directory B exactly one. -/
def filesC7 : List FsPath :=
  [["r", "A", "a.ski"], ["r", "A", "b.ski"], ["r", "B", "c.ski"]]

/-- A filesystem is prepared for the case directory `cd` when the three
standard subdirectories exist and no regular file sits directly inside the
output subdirectory. -/
def cleanedCase (cd : FsPath) (fs : FS) : Prop :=
  cd ++ ["in"] ∈ fs.dirs ∧ cd ++ ["out"] ∈ fs.dirs ∧ cd ++ ["ref"] ∈ fs.dirs ∧
  ∀ p ∈ fs.files, ¬ p.dropLast = cd ++ ["out"]

/-- The invariant of the scheduler loop of `perform`, for a run over the
discovered case list `init` with `cpu` processor cores: the dispatch trace and
the pending queue partition the discovered list; finalized, in-flight and
pending cases together are a permutation of the discovered list; the counters
agree with the traces; in-flight handles were launched in the past; a context
holding a handle that is no longer in flight has already been observed
non-running; the slot pool has the allocated size; recorded report keywords
come from `reportTestCase`; and an exited state has finalized everything. -/
structure LoopInv (env : Env) (init : List Nat) (cpu : Nat) (s : LoopState) : Prop where
  disp_cases : s.dispatched ++ s.cases = init
  total_eq : s.numTotal = init.length
  histPerm : (s.reports.map Prod.fst ++ (s.sims.map Sim.caseIdx ++ s.cases)).Perm init
  reports_len : s.reports.length = s.numDone
  stat_sum : statSum s.statistics = s.numDone
  sims_start : ∀ sim ∈ s.sims, sim.startPass ≤ s.t
  skirt_inv : ∀ slot ∈ s.skirts, ∀ sim, slot = some sim →
    sim ∈ s.sims ∨ simRunning env s.t sim = false
  skirt_len : s.skirts.length = min init.length (max cpu 1)
  reports_word : ∀ pr ∈ s.reports,
    pr.2 = (reportTestCase (env.outDir pr.1) (env.finalStatus pr.1)).2
  exit_done : s.exited = true → s.numDone = s.numTotal

/-- A concrete environment: every execution runs for one pass and finishes. -/
def envC1 : Env := ⟨fun _ => 1, fun _ => "Finished", fun _ => []⟩

/-- A concrete environment: every execution is terminal immediately. -/
def envC2 : Env := ⟨fun _ => 0, fun _ => "Finished", fun _ => []⟩

/-- A concrete mid-run loop state with two simultaneously terminal handles. -/
def stateC2 : LoopState :=
  ⟨[], [⟨0, 0⟩, ⟨1, 0⟩], [some ⟨0, 0⟩, some ⟨1, 0⟩], 0, [], 2, [0, 1], [], 0,
    false, false⟩

-- ---------------------------------------------------------------------------
-- Basic lemmas about discovery
-- ---------------------------------------------------------------------------

theorem mem_collectSki (files : List FsPath) (roots : List FsPath) (p : FsPath) :
    p ∈ collectSki files roots ↔ ∃ r ∈ roots, p ∈ rglobSki files r := by
  induction roots with
  | nil => simp [collectSki]
  | cons r rs ih => simp [collectSki, List.mem_append, ih, or_and_right, exists_or]

-- ---------------------------------------------------------------------------
-- Claim C5
-- ---------------------------------------------------------------------------

/-- Claim C5: `reportTestCase` classifies a completed simulation as Crashed
exactly when its status is not the sentinel "Finished", classifies it as
Succeeded otherwise, writes exactly the classification keyword as the single
line of the report file placed in the case's output directory, and returns
that same keyword. -/
theorem reportTestCase_classification (outDir : FsPath) (st : String) :
    ((reportTestCase outDir st).2 = "Crashed" ↔ st ≠ "Finished") ∧
    ((reportTestCase outDir st).2 = "Succeeded" ↔ st = "Finished") ∧
    (reportTestCase outDir st).1.1 = outDir ++ ["_testreport.txt"] ∧
    (reportTestCase outDir st).1.2 = (reportTestCase outDir st).2 ++ "\n" := by
  by_cases h : st = "Finished" <;> simp [reportTestCase, h]

theorem reportTestCase_classification_witness :
    (reportTestCase ["o"] "Killed").2 = "Crashed" :=
  (reportTestCase_classification ["o"] "Killed").1.mpr (by decide)

-- ---------------------------------------------------------------------------
-- Claim C8
-- ---------------------------------------------------------------------------

/-- Claim C8 counterexample: the selector "a.b" is not the exact string ".",
yet it selects the suite root itself (the Python test is the substring test
`"." in subSuite`), contradicting the claim that only the exact string "."
selects the root. -/
theorem selector_root_counterexample :
    selectSubSuitePaths [] ["r"] (some "a.b") = [["r"]] ∧ "a.b" ≠ "." := by
  constructor
  · rfl
  · decide

/-- Claim C8 (amended): the selector resolves to the suite root itself exactly
when it is `None`, the empty string, or contains a period character anywhere;
any other selector string is resolved by name matching to candidate entries
strictly beneath the root, never to the root itself. -/
theorem selector_resolution (entries : List FsPath) (root : FsPath) :
    selectSubSuitePaths entries root none = [root] ∧
    (∀ s : String, s = "" ∨ s.data.contains '.' = true →
      selectSubSuitePaths entries root (some s) = [root]) ∧
    (∀ s : String, s ≠ "" → s.data.contains '.' = false →
      ∀ p ∈ selectSubSuitePaths entries root (some s),
        dirLeads root p = true ∧ root.length < p.length ∧ p ≠ root) := by
  refine ⟨rfl, ?_, ?_⟩
  · intro s hs
    rcases hs with h | h
    · subst h
      rfl
    · simp only [selectSubSuitePaths]
      rw [if_pos (Or.inr h)]
  · intro s h1 h2 p hp
    have hcond : ¬ (s = "" ∨ s.data.contains '.' = true) := by
      rintro (h | h)
      · exact h1 h
      · rw [h2] at h; exact Bool.false_ne_true h
    simp only [selectSubSuitePaths, if_neg hcond, List.mem_filter,
      Bool.and_eq_true, decide_eq_true_eq] at hp
    refine ⟨hp.2.1.1, hp.2.1.2, ?_⟩
    intro he
    subst he
    exact lt_irrefl _ hp.2.1.2

theorem selector_resolution_witness :
    selectSubSuitePaths [] ["r"] (some "") = [["r"]] :=
  (selector_resolution [] ["r"]).2.1 "" (Or.inl rfl)

-- ---------------------------------------------------------------------------
-- Claim C7
-- ---------------------------------------------------------------------------

/-- Claim C7 counterexample: the directory A contains two definition files,
yet discovery raises no error — it silently excludes A's ski files and
returns the remaining valid case. -/
theorem discovery_ambiguous_counterexample :
    countSki filesC7 ["r", "A", "a.ski"] = 2 ∧
    initSkiPaths filesC7 [["r"]] = Except.ok [["r", "B", "c.ski"]] := by
  constructor
  · rfl
  · rfl

/-- Claim C7 (amended): a definition file is accepted as a case exactly when it
is the sole definition-marker file in its immediate parent directory;
directories with zero or with more than one definition file are silently
excluded, without raising: an error is raised only when the resulting case
list is empty. -/
theorem discovery_sole_marker (files roots : List FsPath) (p : FsPath) :
    (p ∈ discoverSkiPaths files roots ↔
      (∃ r ∈ roots, p ∈ rglobSki files r) ∧ countSki files p = 1) ∧
    (initSkiPaths files roots = Except.ok (discoverSkiPaths files roots) ↔
      discoverSkiPaths files roots ≠ []) := by
  constructor
  · rw [discoverSkiPaths, canonicalSkiList, List.mem_insertionSort,
      List.mem_dedup, List.mem_filter, mem_collectSki]
    simp
  · rw [initSkiPaths]
    by_cases h : discoverSkiPaths files roots = [] <;> simp [h]

theorem discovery_sole_marker_witness :
    ["r", "B", "c.ski"] ∈ discoverSkiPaths filesC7 [["r"]] :=
  (discovery_sole_marker filesC7 [["r"]] ["r", "B", "c.ski"]).1.mpr
    ⟨⟨["r"], by decide, by decide⟩, by decide⟩

-- ---------------------------------------------------------------------------
-- Claim C6
-- ---------------------------------------------------------------------------

/-- Claim C6: case discovery returns a list with no duplicates, sorted
lexicographically by path, and the canonicalization is invariant under the
order in which candidate paths were collected, so repeated invocations on the
same tree return the identical list. -/
theorem discovery_sorted_deterministic (files roots : List FsPath) :
    (discoverSkiPaths files roots).Nodup ∧
    List.Sorted (fun a b : FsPath => a ≤ b) (discoverSkiPaths files roots) ∧
    (∀ l₁ l₂ : List FsPath, l₁.Perm l₂ →
      canonicalSkiList l₁ = canonicalSkiList l₂) := by
  refine ⟨?_, ?_, ?_⟩
  · exact (List.perm_insertionSort _ _).nodup_iff.mpr (List.nodup_dedup _)
  · exact List.sorted_insertionSort _ _
  · intro l₁ l₂ h
    refine List.eq_of_perm_of_sorted ?_ (List.sorted_insertionSort _ _)
      (List.sorted_insertionSort _ _)
    exact ((List.perm_insertionSort _ _).trans h.dedup).trans
      (List.perm_insertionSort _ _).symm

theorem discovery_sorted_deterministic_witness :
    canonicalSkiList [["b"], ["a"]] = canonicalSkiList [["a"], ["b"]] :=
  (discovery_sorted_deterministic [] []).2.2 [["b"], ["a"]] [["a"], ["b"]]
    (List.Perm.swap ["a"] ["b"] [])

-- ---------------------------------------------------------------------------
-- Lemmas about the workspace preparer
-- ---------------------------------------------------------------------------

theorem mkdirFS_files (fs : FS) (d : FsPath) : (mkdirFS fs d).files = fs.files := by
  unfold mkdirFS
  split <;> rfl

theorem mkdirFS_dirs_mem (fs : FS) (d : FsPath) (x : FsPath) :
    x ∈ (mkdirFS fs d).dirs ↔ x ∈ fs.dirs ∨ x = d := by
  unfold mkdirFS
  split
  · rename_i h
    constructor
    · exact Or.inl
    · rintro (hx | rfl)
      · exact hx
      · exact h
  · simp [List.mem_append]

theorem mkdirFS_of_mem (fs : FS) (d : FsPath) (h : d ∈ fs.dirs) :
    mkdirFS fs d = fs := by
  unfold mkdirFS
  rw [if_pos h]

theorem cleanCase_files (cd : FsPath) (fs : FS) :
    (cleanCase cd fs).files
      = fs.files.filter (fun p => !(p.dropLast == cd ++ ["out"])) := by
  unfold cleanCase
  simp [mkdirFS_files]

theorem cleanCase_dirs_mem (cd : FsPath) (fs : FS) (x : FsPath) :
    x ∈ (cleanCase cd fs).dirs ↔
      x ∈ fs.dirs ∨ x = cd ++ ["in"] ∨ x = cd ++ ["out"] ∨ x = cd ++ ["ref"] := by
  unfold cleanCase
  simp only [mkdirFS_dirs_mem]
  tauto

theorem cleanCase_of_cleaned (cd : FsPath) (fs : FS) (h : cleanedCase cd fs) :
    cleanCase cd fs = fs := by
  obtain ⟨h1, h2, h3, h4⟩ := h
  have hfiles : (cleanCase cd fs).files = fs.files := by
    rw [cleanCase_files]
    apply List.filter_eq_self.mpr
    intro p hp
    simpa using h4 p hp
  have hdirs : (cleanCase cd fs).dirs = fs.dirs := by
    show (mkdirFS (mkdirFS (mkdirFS fs (cd ++ ["in"])) (cd ++ ["out"]))
      (cd ++ ["ref"])).dirs = fs.dirs
    rw [mkdirFS_of_mem fs _ h1, mkdirFS_of_mem fs _ h2, mkdirFS_of_mem fs _ h3]
  calc cleanCase cd fs
      = FS.mk (cleanCase cd fs).dirs (cleanCase cd fs).files := rfl
    _ = FS.mk fs.dirs fs.files := by rw [hdirs, hfiles]
    _ = fs := rfl

theorem cleaned_mono (cd cd2 : FsPath) (fs : FS) (h : cleanedCase cd fs) :
    cleanedCase cd (cleanCase cd2 fs) := by
  obtain ⟨h1, h2, h3, h4⟩ := h
  refine ⟨(cleanCase_dirs_mem _ _ _).mpr (Or.inl h1),
          (cleanCase_dirs_mem _ _ _).mpr (Or.inl h2),
          (cleanCase_dirs_mem _ _ _).mpr (Or.inl h3), ?_⟩
  intro p hp
  rw [cleanCase_files] at hp
  exact h4 p (List.mem_filter.mp hp).1

theorem cleanCase_cleaned (cd : FsPath) (fs : FS) :
    cleanedCase cd (cleanCase cd fs) := by
  refine ⟨(cleanCase_dirs_mem _ _ _).mpr (Or.inr (Or.inl rfl)),
          (cleanCase_dirs_mem _ _ _).mpr (Or.inr (Or.inr (Or.inl rfl))),
          (cleanCase_dirs_mem _ _ _).mpr (Or.inr (Or.inr (Or.inr rfl))), ?_⟩
  intro p hp
  rw [cleanCase_files] at hp
  simpa using (List.mem_filter.mp hp).2

theorem cleanAll_cleaned_mono (sps : List FsPath) (cd : FsPath) (fs : FS)
    (h : cleanedCase cd fs) : cleanedCase cd (cleanAll sps fs) := by
  induction sps generalizing fs with
  | nil => exact h
  | cons sp rest ih => exact ih (cleanCase sp.dropLast fs) (cleaned_mono cd sp.dropLast fs h)

theorem cleanAll_establishes (sps : List FsPath) (fs : FS) :
    ∀ sp ∈ sps, cleanedCase sp.dropLast (cleanAll sps fs) := by
  induction sps generalizing fs with
  | nil =>
    intro sp h
    cases h
  | cons hd rest ih =>
    intro sp hsp
    rcases List.mem_cons.mp hsp with rfl | hmem
    · exact cleanAll_cleaned_mono rest _ _ (cleanCase_cleaned _ _)
    · exact ih (cleanCase hd.dropLast fs) sp hmem

theorem cleanAll_of_cleaned (sps : List FsPath) (fs : FS)
    (h : ∀ sp ∈ sps, cleanedCase sp.dropLast fs) : cleanAll sps fs = fs := by
  induction sps with
  | nil => rfl
  | cons hd rest ih =>
    have hfix : cleanCase hd.dropLast fs = fs :=
      cleanCase_of_cleaned _ _ (h hd (by simp))
    simp only [cleanAll]
    rw [hfix]
    exact ih (fun sp hsp => h sp (by simp [hsp]))

theorem cleanAll_files_mem (sps : List FsPath) (fs : FS) (p : FsPath) :
    p ∈ (cleanAll sps fs).files ↔
      p ∈ fs.files ∧ ∀ sp ∈ sps, ¬ p.dropLast = sp.dropLast ++ ["out"] := by
  induction sps generalizing fs with
  | nil => simp [cleanAll]
  | cons hd rest ih =>
    simp only [cleanAll]
    rw [ih, cleanCase_files]
    constructor
    · rintro ⟨hp, hrest⟩
      obtain ⟨hpf, hcond⟩ := List.mem_filter.mp hp
      refine ⟨hpf, ?_⟩
      intro sp hsp
      rcases List.mem_cons.mp hsp with rfl | hm
      · simpa using hcond
      · exact hrest sp hm
    · rintro ⟨hpf, hall⟩
      refine ⟨List.mem_filter.mpr ⟨hpf, ?_⟩, fun sp hsp => hall sp (by simp [hsp])⟩
      simpa using hall hd (by simp)

theorem cleanAll_dirs_mono (sps : List FsPath) (fs : FS) :
    ∀ d ∈ fs.dirs, d ∈ (cleanAll sps fs).dirs := by
  induction sps generalizing fs with
  | nil =>
    intro d hd
    exact hd
  | cons hd rest ih =>
    intro d hdm
    simp only [cleanAll]
    exact ih _ d ((cleanCase_dirs_mem _ _ _).mpr (Or.inl hdm))

-- ---------------------------------------------------------------------------
-- Claim C9
-- ---------------------------------------------------------------------------

/-- Claim C9: running the workspace preparer twice leaves the filesystem in the
same state as running it once (subdirectory creation is idempotent and raises
no error on existing directories); a regular file survives `clean` exactly when
its parent directory is not the `out` subdirectory of some case, so only files
directly inside `out` subdirectories are removed; and no directory is ever
removed, leaving the `in` and `ref` subdirectories and any subdirectories of
`out` untouched. -/
theorem clean_idempotent_and_safe (sps : List FsPath) (fs : FS) :
    cleanAll sps (cleanAll sps fs) = cleanAll sps fs ∧
    (∀ p, p ∈ (cleanAll sps fs).files ↔
      p ∈ fs.files ∧ ∀ sp ∈ sps, ¬ p.dropLast = sp.dropLast ++ ["out"]) ∧
    (∀ d ∈ fs.dirs, d ∈ (cleanAll sps fs).dirs) :=
  ⟨cleanAll_of_cleaned sps (cleanAll sps fs) (cleanAll_establishes sps fs),
   fun p => cleanAll_files_mem sps fs p,
   cleanAll_dirs_mono sps fs⟩

theorem clean_idempotent_and_safe_witness :
    ["r", "A", "ref", "g"] ∈
      (cleanAll [["r", "A", "a.ski"]] ⟨[], [["r", "A", "ref", "g"]]⟩).files :=
  ((clean_idempotent_and_safe [["r", "A", "a.ski"]]
      ⟨[], [["r", "A", "ref", "g"]]⟩).2.1 ["r", "A", "ref", "g"]).mpr
    ⟨by decide, by decide⟩

-- ---------------------------------------------------------------------------
-- Lemmas about the dispatch phase
-- ---------------------------------------------------------------------------

theorem dispatchGo_spec (env : Env) (t : Nat) (slots : List (Option Sim))
    (cases : List Nat) (sims : List Sim) (disp : List Nat) :
    ∃ k, k ≤ cases.length ∧
      (dispatchGo env t slots cases sims disp).cases = cases.drop k ∧
      (dispatchGo env t slots cases sims disp).sims
        = sims ++ (cases.take k).map (fun c => Sim.mk c t) ∧
      (dispatchGo env t slots cases sims disp).dispatched = disp ++ cases.take k ∧
      (dispatchGo env t slots cases sims disp).skirts.length = slots.length := by
  induction slots generalizing cases sims disp with
  | nil => exact ⟨0, by simp [dispatchGo]⟩
  | cons slot rest ih =>
    by_cases hr : skirtRunning env t slot = true
    · obtain ⟨k, hk, h1, h2, h3, h4⟩ := ih cases sims disp
      exact ⟨k, hk, by simp [dispatchGo, hr, h1, h2, h3, h4]⟩
    · cases cases with
      | nil =>
        obtain ⟨k, hk, h1, h2, h3, h4⟩ := ih [] sims disp
        exact ⟨0, by simp [dispatchGo, hr, h1, h2, h3, h4]⟩
      | cons c cs =>
        obtain ⟨k, hk, h1, h2, h3, h4⟩ := ih cs (sims ++ [Sim.mk c t]) (disp ++ [c])
        refine ⟨k + 1, by simpa using Nat.succ_le_succ hk, ?_, ?_, ?_, ?_⟩ <;>
          simp [dispatchGo, hr, h1, h2, h3, h4]

theorem dispatchGo_skirts_mem (env : Env) (t : Nat) (slots : List (Option Sim))
    (cases : List Nat) (sims : List Sim) (disp : List Nat) :
    ∀ slot ∈ (dispatchGo env t slots cases sims disp).skirts,
      slot ∈ slots ∨
        ∃ sim, slot = some sim ∧
          sim ∈ (dispatchGo env t slots cases sims disp).sims := by
  induction slots generalizing cases sims disp with
  | nil =>
    intro slot h
    simp [dispatchGo] at h
  | cons slot0 rest ih =>
    intro slot h
    by_cases hr : skirtRunning env t slot0 = true
    · simp only [dispatchGo, if_pos hr, List.mem_cons] at h
      rcases h with rfl | h
      · exact Or.inl (List.mem_cons_self _ _)
      · rcases ih cases sims disp slot h with hin | ⟨sim, rfl, hsim⟩
        · exact Or.inl (List.mem_cons_of_mem _ hin)
        · exact Or.inr ⟨sim, rfl, by simpa [dispatchGo, if_pos hr] using hsim⟩
    · cases cases with
      | nil =>
        simp only [dispatchGo, if_neg hr, List.mem_cons] at h
        rcases h with rfl | h
        · exact Or.inl (List.mem_cons_self _ _)
        · rcases ih [] sims disp slot h with hin | ⟨sim, rfl, hsim⟩
          · exact Or.inl (List.mem_cons_of_mem _ hin)
          · exact Or.inr ⟨sim, rfl, by simpa [dispatchGo, if_neg hr] using hsim⟩
      | cons c cs =>
        simp only [dispatchGo, if_neg hr, List.mem_cons] at h
        rcases h with rfl | h
        · refine Or.inr ⟨Sim.mk c t, rfl, ?_⟩
          obtain ⟨k, -, -, h2, -, -⟩ :=
            dispatchGo_spec env t rest cs (sims ++ [Sim.mk c t]) (disp ++ [c])
          simp only [dispatchGo, if_neg hr]
          rw [h2]
          simp
        · rcases ih cs (sims ++ [Sim.mk c t]) (disp ++ [c]) slot h with
            hin | ⟨sim, rfl, hsim⟩
          · exact Or.inl (List.mem_cons_of_mem _ hin)
          · exact Or.inr ⟨sim, rfl, by simpa [dispatchGo, if_neg hr] using hsim⟩

theorem dispatchGo_none_dispatched (env : Env) (t : Nat) (slots : List (Option Sim))
    (cases : List Nat) (sims : List Sim) (disp : List Nat)
    (hs : (dispatchGo env t slots cases sims disp).sims = sims)
    (hc : cases ≠ []) :
    ∀ slot ∈ slots, skirtRunning env t slot = true := by
  induction slots generalizing cases sims disp with
  | nil =>
    intro slot h
    cases h
  | cons slot0 rest ih =>
    intro slot hmem
    by_cases hr : skirtRunning env t slot0 = true
    · rcases List.mem_cons.mp hmem with rfl | h2
      · exact hr
      · refine ih cases sims disp ?_ hc slot h2
        simpa [dispatchGo, if_pos hr] using hs
    · exfalso
      cases cases with
      | nil => exact hc rfl
      | cons c cs =>
        obtain ⟨k, -, -, h2, -, -⟩ :=
          dispatchGo_spec env t rest cs (sims ++ [Sim.mk c t]) (disp ++ [c])
        have hlen : ((dispatchGo env t (slot0 :: rest) (c :: cs) sims disp).sims).length
            = sims.length + 1 + ((cs.take k).map (fun c => Sim.mk c t)).length := by
          simp only [dispatchGo, if_neg hr]
          rw [h2]
          simp [Nat.add_assoc]
          omega
        rw [hs] at hlen
        omega

theorem dispatchGo_all_running (env : Env) (t : Nat)
    (hdur : ∀ c, 0 < env.dur c) (slots : List (Option Sim))
    (cases : List Nat) (sims : List Sim) (disp : List Nat)
    (hne : (dispatchGo env t slots cases sims disp).cases ≠ []) :
    ∀ slot ∈ (dispatchGo env t slots cases sims disp).skirts,
      skirtRunning env t slot = true := by
  induction slots generalizing cases sims disp with
  | nil =>
    intro slot h
    simp [dispatchGo] at h
  | cons slot0 rest ih =>
    intro slot hmem
    by_cases hr : skirtRunning env t slot0 = true
    · simp only [dispatchGo, if_pos hr, List.mem_cons] at hmem
      rcases hmem with rfl | h2
      · exact hr
      · refine ih cases sims disp ?_ slot h2
        simpa [dispatchGo, if_pos hr] using hne
    · cases cases with
      | nil =>
        exfalso
        obtain ⟨k, -, h1, -, -, -⟩ := dispatchGo_spec env t rest ([] : List Nat) sims disp
        refine hne ?_
        simp only [dispatchGo, if_neg hr]
        simpa using h1
      | cons c cs =>
        simp only [dispatchGo, if_neg hr, List.mem_cons] at hmem
        rcases hmem with rfl | h2
        · simp [skirtRunning, simRunning]
          exact hdur c
        · refine ih cs (sims ++ [Sim.mk c t]) (disp ++ [c]) ?_ slot h2
          simpa [dispatchGo, if_neg hr] using hne

-- ---------------------------------------------------------------------------
-- Lemmas about the poll phase
-- ---------------------------------------------------------------------------

theorem pollGo_none_iff (env : Env) (t : Nat) (sims : List Sim) :
    pollGo env t sims = none ↔ ∀ sim ∈ sims, simRunning env t sim = true := by
  induction sims with
  | nil => simp [pollGo]
  | cons s0 rest ih =>
    by_cases hr : simRunning env t s0 = true
    · cases hp : pollGo env t rest with
      | none =>
        simp only [pollGo, if_pos hr, hp]
        constructor
        · intro _ sim hs
          rcases List.mem_cons.mp hs with rfl | h2
          · exact hr
          · exact ih.mp hp sim h2
        · intro _
          trivial
      | some pr =>
        obtain ⟨f, rest2⟩ := pr
        simp only [pollGo, if_pos hr, hp]
        constructor
        · intro h
          cases h
        · intro hall
          exfalso
          have : pollGo env t rest = none := ih.mpr (fun sim hs => hall sim (by simp [hs]))
          rw [hp] at this
          cases this
    · simp only [pollGo, if_neg hr]
      constructor
      · intro h
        cases h
      · intro hall
        exact absurd (hall s0 (by simp)) hr

theorem pollGo_some_spec (env : Env) (t : Nat) (sims : List Sim) (f : Sim)
    (rest : List Sim) (h : pollGo env t sims = some (f, rest)) :
    sims.Perm (f :: rest) ∧ simRunning env t f = false := by
  induction sims generalizing rest with
  | nil => simp [pollGo] at h
  | cons s0 tail ih =>
    by_cases hr : simRunning env t s0 = true
    · cases hp : pollGo env t tail with
      | none =>
        rw [pollGo, if_pos hr, hp] at h
        cases h
      | some pr =>
        obtain ⟨f0, rest0⟩ := pr
        rw [pollGo, if_pos hr, hp] at h
        have h2 : some (f0, s0 :: rest0) = some (f, rest) := h
        have hf : f0 = f := by
          injection h2 with h3
          exact congrArg Prod.fst h3
        have hrest : rest = s0 :: rest0 := by
          injection h2 with h3
          exact (congrArg Prod.snd h3).symm
        subst hf
        subst hrest
        obtain ⟨hperm, hrun⟩ := ih rest0 hp
        exact ⟨(hperm.cons s0).trans (List.Perm.swap f0 s0 rest0), hrun⟩
    · rw [pollGo, if_neg hr] at h
      have h2 : some (s0, tail) = some (f, rest) := h
      have hf : s0 = f := by
        injection h2 with h3
        exact congrArg Prod.fst h3
      have hrest : rest = tail := by
        injection h2 with h3
        exact (congrArg Prod.snd h3).symm
      subst hf
      subst hrest
      exact ⟨List.Perm.refl _, by simpa using hr⟩

-- ---------------------------------------------------------------------------
-- Small helper lemmas
-- ---------------------------------------------------------------------------

theorem statSum_bumpStat (l : List (String × Nat)) (k : String) :
    statSum (bumpStat l k) = statSum l + 1 := by
  induction l with
  | nil => rfl
  | cons pr rest ih =>
    obtain ⟨k0, v⟩ := pr
    by_cases h : k0 = k
    · simp [bumpStat, h, statSum]
      omega
    · simp only [bumpStat, if_neg h]
      simp only [statSum, List.map_cons, List.sum_cons] at ih ⊢
      omega

theorem simRunning_false_mono (env : Env) (t t2 : Nat) (sim : Sim)
    (h : simRunning env t sim = false) (hle : t ≤ t2) :
    simRunning env t2 sim = false := by
  simp only [simRunning, decide_eq_false_iff_not, not_lt] at h ⊢
  omega

-- ---------------------------------------------------------------------------
-- Projection lemmas for the phases
-- ---------------------------------------------------------------------------

theorem dispatchPhase_cases (env : Env) (s : LoopState) :
    (dispatchPhase env s).cases
      = (dispatchGo env s.t s.skirts s.cases s.sims s.dispatched).cases := rfl

theorem dispatchPhase_sims (env : Env) (s : LoopState) :
    (dispatchPhase env s).sims
      = (dispatchGo env s.t s.skirts s.cases s.sims s.dispatched).sims := rfl

theorem dispatchPhase_skirts (env : Env) (s : LoopState) :
    (dispatchPhase env s).skirts
      = (dispatchGo env s.t s.skirts s.cases s.sims s.dispatched).skirts := rfl

theorem dispatchPhase_dispatched (env : Env) (s : LoopState) :
    (dispatchPhase env s).dispatched
      = (dispatchGo env s.t s.skirts s.cases s.sims s.dispatched).dispatched := rfl

theorem pollPhase_none (env : Env) (s : LoopState)
    (hp : pollGo env s.t s.sims = none) : pollPhase env s = s := by
  rw [pollPhase, hp]

theorem pollPhase_some (env : Env) (s : LoopState) (f : Sim) (rest : List Sim)
    (hp : pollGo env s.t s.sims = some (f, rest)) :
    pollPhase env s =
      { s with sims := rest,
               numDone := s.numDone + 1,
               statistics := bumpStat s.statistics
                 (reportTestCase (env.outDir f.caseIdx) (env.finalStatus f.caseIdx)).2,
               reports := s.reports ++
                 [(f.caseIdx,
                   (reportTestCase (env.outDir f.caseIdx) (env.finalStatus f.caseIdx)).2)] } := by
  rw [pollPhase, hp]

theorem pollPhase_exited (env : Env) (s : LoopState) :
    (pollPhase env s).exited = s.exited := by
  cases hp : pollGo env s.t s.sims with
  | none => rw [pollPhase_none env s hp]
  | some pr =>
    obtain ⟨f, rest⟩ := pr
    rw [pollPhase_some env s f rest hp]

theorem loopFinish_exit (oldNumDone : Nat) (s2 : LoopState)
    (h : s2.numDone = s2.numTotal) :
    loopFinish oldNumDone s2 = { s2 with exited := true, slept := false } := by
  rw [loopFinish, if_pos h]

theorem loopFinish_cont (oldNumDone : Nat) (s2 : LoopState)
    (h : ¬ s2.numDone = s2.numTotal) :
    loopFinish oldNumDone s2
      = { s2 with t := s2.t + 1, slept := decide (s2.numDone = oldNumDone) } := by
  rw [loopFinish, if_neg h]

theorem runPass_exited (env : Env) (s : LoopState) (h : s.exited = true) :
    runPass env s = s := by
  rw [runPass, if_pos h]

theorem runPass_not_exited (env : Env) (s : LoopState) (h : s.exited = false) :
    runPass env s = loopFinish s.numDone (pollPhase env (dispatchPhase env s)) := by
  rw [runPass, if_neg (by simp [h])]

-- ---------------------------------------------------------------------------
-- The loop invariant
-- ---------------------------------------------------------------------------

theorem LoopInv_initState (env : Env) (init : List Nat) (cpu : Nat) :
    LoopInv env init cpu (initState init cpu) := by
  refine ⟨rfl, rfl, by simp [initState], rfl, rfl, ?_, ?_, by simp [initState], ?_, ?_⟩
  · intro sim h
    simp [initState] at h
  · intro slot h sim he
    simp only [initState, List.mem_replicate] at h
    rw [h.2] at he
    cases he
  · intro pr h
    simp [initState] at h
  · intro h
    exact absurd h (by simp [initState])

theorem LoopInv_dispatchPhase (env : Env) (init : List Nat) (cpu : Nat)
    (s : LoopState) (h : LoopInv env init cpu s) :
    LoopInv env init cpu (dispatchPhase env s) := by
  obtain ⟨k, hk, hc, hs, hd, hl⟩ :=
    dispatchGo_spec env s.t s.skirts s.cases s.sims s.dispatched
  refine ⟨?_, h.total_eq, ?_, h.reports_len, h.stat_sum, ?_, ?_, ?_,
    h.reports_word, ?_⟩
  · rw [dispatchPhase_dispatched, dispatchPhase_cases, hd, hc,
      List.append_assoc, List.take_append_drop]
    exact h.disp_cases
  · rw [dispatchPhase_sims, dispatchPhase_cases, hs, hc]
    have hmap : (List.map (fun c => Sim.mk c s.t) (s.cases.take k)).map Sim.caseIdx
        = s.cases.take k := by
      rw [List.map_map]
      exact List.map_id _
    rw [List.map_append, hmap, List.append_assoc, List.take_append_drop]
    exact h.histPerm
  · intro sim hs2
    rw [dispatchPhase_sims, hs] at hs2
    rcases List.mem_append.mp hs2 with hold | hnew
    · exact h.sims_start sim hold
    · obtain ⟨c, -, rfl⟩ := List.mem_map.mp hnew
      exact Nat.le_refl _
  · intro slot hslot sim he
    rw [dispatchPhase_skirts] at hslot
    rcases dispatchGo_skirts_mem env s.t s.skirts s.cases s.sims s.dispatched
        slot hslot with hold | ⟨sim2, rfl, hsim2⟩
    · rcases h.skirt_inv slot hold sim he with hmem | hnr
      · left
        rw [dispatchPhase_sims, hs]
        exact List.mem_append_left _ hmem
      · right
        exact hnr
    · left
      obtain rfl : sim2 = sim := by
        cases he
        rfl
      exact hsim2
  · rw [dispatchPhase_skirts, hl]
    exact h.skirt_len
  · intro hex
    exact h.exit_done hex

theorem LoopInv_pollPhase (env : Env) (init : List Nat) (cpu : Nat)
    (s : LoopState) (h : LoopInv env init cpu s) (hex : s.exited = false) :
    LoopInv env init cpu (pollPhase env s) := by
  cases hp : pollGo env s.t s.sims with
  | none =>
    rw [pollPhase_none env s hp]
    exact h
  | some pr =>
    obtain ⟨f, rest⟩ := pr
    obtain ⟨hperm, hnr⟩ := pollGo_some_spec env s.t s.sims f rest hp
    rw [pollPhase_some env s f rest hp]
    refine ⟨h.disp_cases, h.total_eq, ?_, ?_, ?_, ?_, ?_, h.skirt_len, ?_, ?_⟩
    · have hsimsmap : (s.sims.map Sim.caseIdx).Perm
          (f.caseIdx :: rest.map Sim.caseIdx) := by
        simpa using hperm.map Sim.caseIdx
      refine List.Perm.trans ?_ h.histPerm
      simp only [List.map_append, List.map_cons, List.map_nil]
      rw [List.append_assoc]
      refine List.Perm.append_left _ ?_
      have : ([f.caseIdx] ++ (rest.map Sim.caseIdx ++ s.cases))
          = (f.caseIdx :: rest.map Sim.caseIdx) ++ s.cases := by
        simp
      rw [this]
      exact hsimsmap.symm.append_right s.cases
    · simp [h.reports_len]
    · rw [statSum_bumpStat]
      rw [h.stat_sum]
    · intro sim hsm
      exact h.sims_start sim (hperm.mem_iff.mpr (List.mem_cons_of_mem f hsm))
    · intro slot hslot sim he
      rcases h.skirt_inv slot hslot sim he with hmem | hnr2
      · rcases List.mem_cons.mp (hperm.mem_iff.mp hmem) with rfl | hrest
        · right
          exact hnr
        · left
          exact hrest
      · right
        exact hnr2
    · intro pr hpr
      rcases List.mem_append.mp hpr with hold | hnew
      · exact h.reports_word pr hold
      · rw [List.mem_singleton] at hnew
        rw [hnew]
    · intro hx
      exact absurd hx (by simp [hex])

theorem LoopInv_loopFinish (env : Env) (init : List Nat) (cpu : Nat)
    (oldNumDone : Nat) (s2 : LoopState) (h : LoopInv env init cpu s2)
    (hex : s2.exited = false) :
    LoopInv env init cpu (loopFinish oldNumDone s2) := by
  by_cases hdone : s2.numDone = s2.numTotal
  · rw [loopFinish_exit oldNumDone s2 hdone]
    exact ⟨h.disp_cases, h.total_eq, h.histPerm, h.reports_len, h.stat_sum,
      h.sims_start, h.skirt_inv, h.skirt_len, h.reports_word, fun _ => hdone⟩
  · rw [loopFinish_cont oldNumDone s2 hdone]
    refine ⟨h.disp_cases, h.total_eq, h.histPerm, h.reports_len, h.stat_sum,
      ?_, ?_, h.skirt_len, h.reports_word, ?_⟩
    · intro sim hs
      exact (h.sims_start sim hs).trans (Nat.le_succ _)
    · intro slot hslot sim he
      rcases h.skirt_inv slot hslot sim he with hmem | hnr
      · left
        exact hmem
      · right
        exact simRunning_false_mono env s2.t (s2.t + 1) sim hnr (Nat.le_succ _)
    · intro hx
      exact absurd hx (by simp [hex])

theorem LoopInv_runPass (env : Env) (init : List Nat) (cpu : Nat) (s : LoopState)
    (h : LoopInv env init cpu s) : LoopInv env init cpu (runPass env s) := by
  by_cases hex : s.exited = true
  · rw [runPass_exited env s hex]
    exact h
  · have hex2 : s.exited = false := by
      simpa using hex
    rw [runPass_not_exited env s hex2]
    have h1 := LoopInv_dispatchPhase env init cpu s h
    have hex3 : (dispatchPhase env s).exited = false := hex2
    have h2 := LoopInv_pollPhase env init cpu _ h1 hex3
    have hex4 : (pollPhase env (dispatchPhase env s)).exited = false := by
      rw [pollPhase_exited]
      exact hex3
    exact LoopInv_loopFinish env init cpu s.numDone _ h2 hex4

theorem LoopInv_run (env : Env) (init : List Nat) (cpu : Nat) (n : Nat) :
    LoopInv env init cpu (run env (initState init cpu) n) := by
  induction n with
  | zero => exact LoopInv_initState env init cpu
  | succ n ih => exact LoopInv_runPass env init cpu _ ih

-- ---------------------------------------------------------------------------
-- The termination measure
-- ---------------------------------------------------------------------------

theorem LoopInv_conservation (env : Env) (init : List Nat) (cpu : Nat)
    (s : LoopState) (h : LoopInv env init cpu s) :
    s.numDone + s.sims.length + s.cases.length = s.numTotal := by
  have hlen := h.histPerm.length_eq
  simp only [List.length_append, List.length_map] at hlen
  have h1 := h.reports_len
  have h2 := h.total_eq
  omega

theorem phi_not_exited (env : Env) (s : LoopState) (h : s.exited = false) :
    phi env s = (s.numTotal - s.numDone)
      + (s.cases.map (fun c => env.dur c + 1)).sum
      + (s.sims.map (fun sim => (sim.startPass + env.dur sim.caseIdx) - s.t)).sum
      + 1 := by
  rw [phi, if_neg (by simp [h])]

theorem phi_exited (env : Env) (s : LoopState) (h : s.exited = true) :
    phi env s = 0 := by
  rw [phi, if_pos h]

theorem phi_pos (env : Env) (s : LoopState) (h : s.exited = false) :
    0 < phi env s := by
  rw [phi_not_exited env s h]
  omega

theorem phi_cont (env : Env) (oldNumDone : Nat) (s2 : LoopState)
    (hex : s2.exited = false) (hdone : ¬ s2.numDone = s2.numTotal) :
    phi env (loopFinish oldNumDone s2)
      = (s2.numTotal - s2.numDone)
        + (s2.cases.map (fun c => env.dur c + 1)).sum
        + (s2.sims.map (fun sim =>
            (sim.startPass + env.dur sim.caseIdx) - (s2.t + 1))).sum
        + 1 := by
  rw [loopFinish_cont oldNumDone s2 hdone]
  have hex2 :
      ({ s2 with
          t := s2.t + 1
          slept := decide (s2.numDone = oldNumDone) } : LoopState).exited = false :=
    hex
  rw [phi_not_exited env _ hex2]

theorem sum_rem_mono (env : Env) (t : Nat) (l : List Sim) :
    (l.map (fun sim => (sim.startPass + env.dur sim.caseIdx) - (t + 1))).sum
      ≤ (l.map (fun sim => (sim.startPass + env.dur sim.caseIdx) - t)).sum :=
  List.sum_le_sum (fun sim _ => by omega)

theorem sum_rem_strict (env : Env) (t : Nat) (l : List Sim) (hne : l ≠ [])
    (hall : ∀ sim ∈ l, simRunning env t sim = true) :
    (l.map (fun sim => (sim.startPass + env.dur sim.caseIdx) - (t + 1))).sum
      < (l.map (fun sim => (sim.startPass + env.dur sim.caseIdx) - t)).sum := by
  refine List.sum_lt_sum _ _ (fun sim _ => by omega) ?_
  cases l with
  | nil => exact absurd rfl hne
  | cons x xs =>
    refine ⟨x, List.mem_cons_self x xs, ?_⟩
    have hx := hall x (List.mem_cons_self x xs)
    simp only [simRunning, decide_eq_true_eq] at hx
    omega

theorem sum_new_le_t (env : Env) (t : Nat) (cs : List Nat) :
    (((cs.map (fun c => Sim.mk c t)).map
        (fun sim => (sim.startPass + env.dur sim.caseIdx) - t)).sum)
      ≤ (cs.map (fun c => env.dur c + 1)).sum := by
  rw [List.map_map]
  refine List.sum_le_sum (fun c _ => ?_)
  show (t + env.dur c) - t ≤ env.dur c + 1
  omega

theorem sum_new_le_t1 (env : Env) (t : Nat) (cs : List Nat) :
    (((cs.map (fun c => Sim.mk c t)).map
        (fun sim => (sim.startPass + env.dur sim.caseIdx) - (t + 1))).sum)
      ≤ (cs.map (fun c => env.dur c + 1)).sum := by
  rw [List.map_map]
  refine List.sum_le_sum (fun c _ => ?_)
  show (t + env.dur c) - (t + 1) ≤ env.dur c + 1
  omega

theorem sum_new_lt_t1 (env : Env) (t : Nat) (cs : List Nat) (hne : cs ≠ []) :
    (((cs.map (fun c => Sim.mk c t)).map
        (fun sim => (sim.startPass + env.dur sim.caseIdx) - (t + 1))).sum)
      < (cs.map (fun c => env.dur c + 1)).sum := by
  rw [List.map_map]
  refine List.sum_lt_sum _ _ (fun c _ => ?_) ?_
  · show (t + env.dur c) - (t + 1) ≤ env.dur c + 1
    omega
  · cases cs with
    | nil => exact absurd rfl hne
    | cons c cs2 =>
      refine ⟨c, List.mem_cons_self c cs2, ?_⟩
      show (t + env.dur c) - (t + 1) < env.dur c + 1
      omega

theorem phi_runPass_lt (env : Env) (init : List Nat) (cpu : Nat)
    (s : LoopState) (h : LoopInv env init cpu s) (hex : s.exited = false) :
    phi env (runPass env s) < phi env s := by
  rw [runPass_not_exited env s hex]
  obtain ⟨k, hk, hc, hs, hd, hl⟩ :=
    dispatchGo_spec env s.t s.skirts s.cases s.sims s.dispatched
  have e1 : (dispatchPhase env s).cases = s.cases.drop k := by
    rw [dispatchPhase_cases, hc]
  have e2 : (dispatchPhase env s).sims
      = s.sims ++ (s.cases.take k).map (fun c => Sim.mk c s.t) := by
    rw [dispatchPhase_sims, hs]
  have e4 : (dispatchPhase env s).numDone = s.numDone := rfl
  have e5 : (dispatchPhase env s).numTotal = s.numTotal := rfl
  have e6 : (dispatchPhase env s).exited = false := hex
  have hcons := LoopInv_conservation env init cpu s h
  cases hp : pollGo env (dispatchPhase env s).t (dispatchPhase env s).sims with
  | some pr =>
    obtain ⟨fl, rest⟩ := pr
    obtain ⟨hperm, hnr⟩ := pollGo_some_spec env _ _ fl rest hp
    have hs2 := pollPhase_some env (dispatchPhase env s) fl rest hp
    by_cases hdone : (pollPhase env (dispatchPhase env s)).numDone
        = (pollPhase env (dispatchPhase env s)).numTotal
    · rw [loopFinish_exit _ _ hdone, phi_exited env _ rfl]
      exact phi_pos env s hex
    · have hexs2 : (pollPhase env (dispatchPhase env s)).exited = false := by
        rw [pollPhase_exited]
        exact e6
      have g1 : (pollPhase env (dispatchPhase env s)).sims = rest := by
        rw [hs2]
      have g2 : (pollPhase env (dispatchPhase env s)).numDone = s.numDone + 1 := by
        rw [hs2]
        rfl
      have g3 : (pollPhase env (dispatchPhase env s)).numTotal = s.numTotal := by
        rw [hs2]
        rfl
      have g4 : (pollPhase env (dispatchPhase env s)).t = s.t := by
        rw [hs2]
        rfl
      have g5 : (pollPhase env (dispatchPhase env s)).cases = s.cases.drop k := by
        rw [hs2]
        exact e1
      rw [phi_cont env s.numDone _ hexs2 hdone, phi_not_exited env s hex]
      rw [g1, g2, g3, g4, g5]
      have F1 : s.numDone + 1 ≤ s.numTotal := by
        have h1 := LoopInv_dispatchPhase env init cpu s h
        have h2 := LoopInv_pollPhase env init cpu _ h1 e6
        have h3 := LoopInv_conservation env init cpu _ h2
        rw [g2, g3] at h3
        omega
      have F2 : (s.cases.map (fun c => env.dur c + 1)).sum
          = ((s.cases.take k).map (fun c => env.dur c + 1)).sum
            + ((s.cases.drop k).map (fun c => env.dur c + 1)).sum := by
        conv_lhs => rw [← List.take_append_drop k s.cases]
        rw [List.map_append, List.sum_append]
      have F3 : (rest.map (fun sim =>
            (sim.startPass + env.dur sim.caseIdx) - (s.t + 1))).sum
          ≤ (rest.map (fun sim =>
            (sim.startPass + env.dur sim.caseIdx) - s.t)).sum :=
        sum_rem_mono env s.t rest
      have F4 : (rest.map (fun sim =>
            (sim.startPass + env.dur sim.caseIdx) - s.t)).sum
          ≤ ((dispatchPhase env s).sims.map (fun sim =>
            (sim.startPass + env.dur sim.caseIdx) - s.t)).sum := by
        have hpm := (hperm.map (fun sim =>
          (sim.startPass + env.dur sim.caseIdx) - s.t)).sum_eq
        simp only [List.map_cons, List.sum_cons] at hpm
        omega
      have F5 : ((dispatchPhase env s).sims.map (fun sim =>
            (sim.startPass + env.dur sim.caseIdx) - s.t)).sum
          = (s.sims.map (fun sim =>
              (sim.startPass + env.dur sim.caseIdx) - s.t)).sum
            + (((s.cases.take k).map (fun c => Sim.mk c s.t)).map (fun sim =>
              (sim.startPass + env.dur sim.caseIdx) - s.t)).sum := by
        rw [e2, List.map_append, List.sum_append]
      have F6 := sum_new_le_t env s.t (s.cases.take k)
      omega
  | none =>
    have hs2 := pollPhase_none env (dispatchPhase env s) hp
    rw [hs2]
    by_cases hdone : (dispatchPhase env s).numDone = (dispatchPhase env s).numTotal
    · rw [loopFinish_exit _ _ hdone, phi_exited env _ rfl]
      exact phi_pos env s hex
    · have e3 : (dispatchPhase env s).t = s.t := rfl
      rw [phi_cont env s.numDone _ e6 hdone, phi_not_exited env s hex]
      rw [e1, e2, e3, e4, e5]
      have F2 : (s.cases.map (fun c => env.dur c + 1)).sum
          = ((s.cases.take k).map (fun c => env.dur c + 1)).sum
            + ((s.cases.drop k).map (fun c => env.dur c + 1)).sum := by
        conv_lhs => rw [← List.take_append_drop k s.cases]
        rw [List.map_append, List.sum_append]
      have hall : ∀ sim ∈ (dispatchPhase env s).sims,
          simRunning env s.t sim = true :=
        (pollGo_none_iff env (dispatchPhase env s).t (dispatchPhase env s).sims).mp hp
      have Fsplit : ((s.sims ++ (s.cases.take k).map (fun c => Sim.mk c s.t)).map
            (fun sim => (sim.startPass + env.dur sim.caseIdx) - (s.t + 1))).sum
          = (s.sims.map (fun sim =>
              (sim.startPass + env.dur sim.caseIdx) - (s.t + 1))).sum
            + (((s.cases.take k).map (fun c => Sim.mk c s.t)).map (fun sim =>
              (sim.startPass + env.dur sim.caseIdx) - (s.t + 1))).sum := by
        rw [List.map_append, List.sum_append]
      rw [Fsplit]
      by_cases hsn : s.sims = []
      · by_cases htn : s.cases.take k = []
        · exfalso
          by_cases hcn : s.cases = []
          · apply hdone
            rw [e4, e5]
            rw [hcn, hsn] at hcons
            simp at hcons
            omega
          · have hknz : k = 0 := by
              rcases List.take_eq_nil_iff.mp htn with h0 | h0
              · exact h0
              · exact absurd h0 hcn
            have hsame :
                (dispatchGo env s.t s.skirts s.cases s.sims s.dispatched).sims
                  = s.sims := by
              rw [hs, hknz]
              simp
            have hallslots := dispatchGo_none_dispatched env s.t s.skirts
              s.cases s.sims s.dispatched hsame hcn
            have hinit_ne : init ≠ [] := by
              intro h0
              rw [← h.disp_cases] at h0
              exact hcn (List.append_eq_nil.mp h0).2
            have hlen2 : 0 < s.skirts.length := by
              rw [h.skirt_len]
              have : 0 < init.length := List.length_pos.mpr hinit_ne
              omega
            cases hsk : s.skirts with
            | nil =>
              rw [hsk] at hlen2
              simp at hlen2
            | cons slot0 rest2 =>
              have hslot0 : slot0 ∈ s.skirts := by
                rw [hsk]
                exact List.mem_cons_self _ _
              have hrun0 := hallslots slot0 hslot0
              cases slot0 with
              | none => simp [skirtRunning] at hrun0
              | some sim0 =>
                rcases h.skirt_inv (some sim0) hslot0 sim0 rfl with hmem | hnr0
                · rw [hsn] at hmem
                  cases hmem
                · have hrun1 : simRunning env s.t sim0 = true := hrun0
                  rw [hnr0] at hrun1
                  cases hrun1
        · rw [hsn]
          simp only [List.map_nil, List.sum_nil, List.nil_append]
          have := sum_new_lt_t1 env s.t (s.cases.take k) htn
          omega
      · have hallold : ∀ sim ∈ s.sims, simRunning env s.t sim = true := by
          intro sim hm
          refine hall sim ?_
          rw [e2]
          exact List.mem_append_left _ hm
        have Fb := sum_rem_strict env s.t s.sims hsn hallold
        have Fn := sum_new_le_t1 env s.t (s.cases.take k)
        omega

-- ---------------------------------------------------------------------------
-- Termination of the scheduler loop
-- ---------------------------------------------------------------------------

theorem run_shift (env : Env) (s : LoopState) (n : Nat) :
    run env s (n + 1) = run env (runPass env s) n := by
  induction n with
  | zero => rfl
  | succ n ih =>
    show runPass env (run env s (n + 1)) = runPass env (run env (runPass env s) n)
    rw [ih]

theorem run_exited_frozen (env : Env) (s : LoopState) (h : s.exited = true)
    (n : Nat) : run env s n = s := by
  induction n with
  | zero => rfl
  | succ n ih =>
    show runPass env (run env s n) = s
    rw [ih, runPass_exited env s h]

theorem run_exited_of_phi (env : Env) (init : List Nat) (cpu : Nat) :
    ∀ (m : Nat) (s : LoopState), LoopInv env init cpu s → phi env s ≤ m →
      (run env s m).exited = true := by
  intro m
  induction m with
  | zero =>
    intro s hInv hphi
    by_cases hex : s.exited = true
    · exact hex
    · have := phi_pos env s (by simpa using hex)
      omega
  | succ m ih =>
    intro s hInv hphi
    by_cases hex : s.exited = true
    · rw [run_exited_frozen env s hex]
      exact hex
    · have hex2 : s.exited = false := by simpa using hex
      have hlt := phi_runPass_lt env init cpu s hInv hex2
      rw [run_shift]
      exact ih (runPass env s) (LoopInv_runPass env init cpu s hInv) (by omega)

theorem finalState_exited (env : Env) (cases : List Nat) (cpu : Nat) :
    (finalState env cases cpu).exited = true :=
  run_exited_of_phi env cases cpu _ _ (LoopInv_initState env cases cpu)
    (Nat.le_refl _)

theorem pollPhase_numTotal (env : Env) (s : LoopState) :
    (pollPhase env s).numTotal = s.numTotal := by
  cases hp : pollGo env s.t s.sims with
  | none => rw [pollPhase_none env s hp]
  | some pr =>
    obtain ⟨f, rest⟩ := pr
    rw [pollPhase_some env s f rest hp]

theorem runPass_cases (env : Env) (s : LoopState) (hex : s.exited = false) :
    (runPass env s).numTotal = s.numTotal ∧
    ((runPass env s).exited = true ↔ (runPass env s).numDone = s.numTotal) ∧
    ((runPass env s).exited = true → (runPass env s).slept = false) := by
  rw [runPass_not_exited env s hex]
  have hT : (pollPhase env (dispatchPhase env s)).numTotal = s.numTotal := by
    rw [pollPhase_numTotal]
    rfl
  have hE : (pollPhase env (dispatchPhase env s)).exited = false := by
    rw [pollPhase_exited]
    exact hex
  by_cases hd : (pollPhase env (dispatchPhase env s)).numDone
      = (pollPhase env (dispatchPhase env s)).numTotal
  · rw [loopFinish_exit _ _ hd]
    refine ⟨hT, ?_, ?_⟩
    · constructor
      · intro _
        show (pollPhase env (dispatchPhase env s)).numDone = s.numTotal
        rw [hd, hT]
      · intro _
        rfl
    · intro _
      rfl
  · rw [loopFinish_cont _ _ hd]
    refine ⟨hT, ?_, ?_⟩
    · constructor
      · intro hx
        have hx2 : (pollPhase env (dispatchPhase env s)).exited = true := hx
        rw [hE] at hx2
        cases hx2
      · intro hnum
        exfalso
        apply hd
        have hnum2 : (pollPhase env (dispatchPhase env s)).numDone = s.numTotal := hnum
        rw [hnum2, hT]
    · intro hx
      have hx2 : (pollPhase env (dispatchPhase env s)).exited = true := hx
      rw [hE] at hx2
      cases hx2

-- ---------------------------------------------------------------------------
-- Claim C1
-- ---------------------------------------------------------------------------

/-- Claim C1: for every suite run in which each dispatched execution handle
eventually reports non-running status (in this model every handle has a finite
duration), the scheduler loop of `perform` terminates: some pass sets the exit
flag.  It exits exactly when the number of finalized cases equals the total
discovered count: an exited state always has `numDone = numTotal` (never
earlier), a pass starting from a non-exited state exits iff its `numDone`
reaches the total (never later), and the pass in which the last case is
finalized exits before any sleep (its sleep flag is false). -/
theorem scheduler_loop_terminates (env : Env) (initCases : List Nat) (cpu : Nat) :
    (∃ n, (run env (initState initCases cpu) n).exited = true) ∧
    (∀ n, (run env (initState initCases cpu) n).exited = true →
      (run env (initState initCases cpu) n).numDone
        = (run env (initState initCases cpu) n).numTotal) ∧
    (∀ n, (run env (initState initCases cpu) n).exited = false →
      ((run env (initState initCases cpu) (n + 1)).exited = true ↔
        (run env (initState initCases cpu) (n + 1)).numDone
          = (run env (initState initCases cpu) n).numTotal)) ∧
    (∀ n, (run env (initState initCases cpu) n).exited = false →
      (run env (initState initCases cpu) (n + 1)).exited = true →
      (run env (initState initCases cpu) (n + 1)).slept = false) := by
  have hTn : ∀ n, (run env (initState initCases cpu) n).numTotal
      = initCases.length := fun n => (LoopInv_run env initCases cpu n).total_eq
  refine ⟨⟨phi env (initState initCases cpu),
    run_exited_of_phi env initCases cpu _ _
      (LoopInv_initState env initCases cpu) (Nat.le_refl _)⟩, ?_, ?_, ?_⟩
  · intro n hx
    exact (LoopInv_run env initCases cpu n).exit_done hx
  · intro n hx
    have h2 := runPass_cases env (run env (initState initCases cpu) n) hx
    show (runPass env (run env (initState initCases cpu) n)).exited = true ↔
      (runPass env (run env (initState initCases cpu) n)).numDone
        = (run env (initState initCases cpu) n).numTotal
    exact h2.2.1
  · intro n hx1 hx2
    have h2 := runPass_cases env (run env (initState initCases cpu) n) hx1
    show (runPass env (run env (initState initCases cpu) n)).slept = false
    exact h2.2.2 hx2

-- ---------------------------------------------------------------------------
-- Claim C10
-- ---------------------------------------------------------------------------

/-- Claim C10: in every state reached by the scheduler loop (in particular at
the termination check of every pass), the number of finalized cases plus the
number of in-flight simulations plus the number of pending cases equals the
total discovered case count, and `numDone` equals the sum of all counts in the
statistics mapping; consequently at loop exit the statistics counts sum to the
total case count. -/
theorem conservation_invariant (env : Env) (initCases : List Nat) (cpu : Nat)
    (n : Nat) :
    ((run env (initState initCases cpu) n).numDone
        + (run env (initState initCases cpu) n).sims.length
        + (run env (initState initCases cpu) n).cases.length
      = (run env (initState initCases cpu) n).numTotal) ∧
    statSum (run env (initState initCases cpu) n).statistics
      = (run env (initState initCases cpu) n).numDone ∧
    ((run env (initState initCases cpu) n).exited = true →
      statSum (run env (initState initCases cpu) n).statistics
        = (run env (initState initCases cpu) n).numTotal) := by
  have h := LoopInv_run env initCases cpu n
  refine ⟨LoopInv_conservation env initCases cpu _ h, h.stat_sum, ?_⟩
  intro hx
  rw [h.stat_sum]
  exact h.exit_done hx

-- ---------------------------------------------------------------------------
-- Claim C2
-- ---------------------------------------------------------------------------

/-- Claim C2: in every pass of the scheduler loop, the poll-and-report phase
finalizes at most one in-flight simulation; and in any pass in which at least
one in-flight handle is terminal after the dispatch phase, exactly one case is
finalized — counted once into `numDone` and into the statistics, recorded
once, and removed from the in-flight list — even if several handles are
simultaneously terminal. -/
theorem pass_finalizes_at_most_one (env : Env) (s : LoopState) :
    (pollPhase env (dispatchPhase env s)).numDone
        ≤ (dispatchPhase env s).numDone + 1 ∧
    ((∃ sim ∈ (dispatchPhase env s).sims,
        simRunning env (dispatchPhase env s).t sim = false) →
      (pollPhase env (dispatchPhase env s)).numDone
          = (dispatchPhase env s).numDone + 1 ∧
      (pollPhase env (dispatchPhase env s)).sims.length + 1
          = (dispatchPhase env s).sims.length ∧
      statSum (pollPhase env (dispatchPhase env s)).statistics
          = statSum (dispatchPhase env s).statistics + 1 ∧
      (pollPhase env (dispatchPhase env s)).reports.length
          = (dispatchPhase env s).reports.length + 1) := by
  cases hp : pollGo env (dispatchPhase env s).t (dispatchPhase env s).sims with
  | none =>
    rw [pollPhase_none env _ hp]
    refine ⟨Nat.le_succ _, ?_⟩
    rintro ⟨sim, hmem, hnr⟩
    have := (pollGo_none_iff env _ _).mp hp sim hmem
    rw [hnr] at this
    cases this
  | some pr =>
    obtain ⟨f, rest⟩ := pr
    obtain ⟨hperm, -⟩ := pollGo_some_spec env _ _ f rest hp
    rw [pollPhase_some env _ f rest hp]
    refine ⟨Nat.le_refl _, ?_⟩
    intro _
    refine ⟨rfl, ?_, statSum_bumpStat _ _, by simp⟩
    show rest.length + 1 = (dispatchPhase env s).sims.length
    have := hperm.length_eq
    simp at this
    omega

-- ---------------------------------------------------------------------------
-- Claim C3
-- ---------------------------------------------------------------------------

/-- Claim C3: over every run of the scheduler loop, the dispatch trace
concatenated with the remaining pending queue is exactly the discovery-ordered
case list, so cases are popped from the front in FIFO order and dispatch order
equals discovery order; when the discovered list has no duplicates, no case is
ever dispatched more than once; and after the dispatch phase of any pass, if
pending cases remain then every execution slot is running (no slot is left
idle), provided every execution has positive duration. -/
theorem dispatch_fifo (env : Env) (initCases : List Nat) (cpu : Nat)
    (hdur : ∀ c, 0 < env.dur c) (hnd : initCases.Nodup) (n : Nat) :
    ((run env (initState initCases cpu) n).dispatched
        ++ (run env (initState initCases cpu) n).cases = initCases) ∧
    (run env (initState initCases cpu) n).dispatched.Nodup ∧
    ((dispatchPhase env (run env (initState initCases cpu) n)).cases ≠ [] →
      ∀ slot ∈ (dispatchPhase env (run env (initState initCases cpu) n)).skirts,
        skirtRunning env (run env (initState initCases cpu) n).t slot = true) := by
  have h := LoopInv_run env initCases cpu n
  refine ⟨h.disp_cases, ?_, ?_⟩
  · have h2 : ((run env (initState initCases cpu) n).dispatched
        ++ (run env (initState initCases cpu) n).cases).Nodup := by
      rw [h.disp_cases]
      exact hnd
    exact h2.of_append_left
  · intro hne slot hmem
    rw [dispatchPhase_skirts] at hmem
    rw [dispatchPhase_cases] at hne
    exact dispatchGo_all_running env _ hdur _ _ _ _ hne slot hmem

-- ---------------------------------------------------------------------------
-- Witness environments
-- ---------------------------------------------------------------------------

theorem scheduler_loop_terminates_witness :
    (run envC1 (initState [0] 1) 2).numDone
      = (run envC1 (initState [0] 1) 2).numTotal :=
  (scheduler_loop_terminates envC1 [0] 1).2.1 2 (by decide)

theorem conservation_invariant_witness :
    statSum (run envC1 (initState [0] 1) 2).statistics
      = (run envC1 (initState [0] 1) 2).numTotal :=
  (conservation_invariant envC1 [0] 1 2).2.2 (by decide)

theorem pass_finalizes_at_most_one_witness :
    (pollPhase envC2 (dispatchPhase envC2 stateC2)).numDone
      = (dispatchPhase envC2 stateC2).numDone + 1 :=
  ((pass_finalizes_at_most_one envC2 stateC2).2
    ⟨Sim.mk 0 0, by decide, by decide⟩).1

theorem dispatch_fifo_witness :
    (run envC1 (initState [0] 1) 1).dispatched
      ++ (run envC1 (initState [0] 1) 1).cases = [0] :=
  (dispatch_fifo envC1 [0] 1 (fun _ => Nat.one_pos) (by decide) 1).1

-- ---------------------------------------------------------------------------
-- Lemmas for the consolidated report
-- ---------------------------------------------------------------------------

theorem mapCongrMem {α β : Type} (l : List α) (f g : α → β)
    (h : ∀ a ∈ l, f a = g a) : l.map f = l.map g := by
  induction l with
  | nil => rfl
  | cons a rest ih =>
    simp only [List.map_cons]
    rw [h a (List.mem_cons_self a rest), ih (fun a ha => h a (List.mem_cons_of_mem _ ha))]

theorem lookupReport_mem (reports : List (Nat × String)) (i : Nat)
    (hmem : i ∈ reports.map Prod.fst) :
    ∃ w, lookupReport reports i = some w ∧ (i, w) ∈ reports := by
  induction reports with
  | nil => simp at hmem
  | cons pr rest ih =>
    obtain ⟨c, w⟩ := pr
    by_cases hc : c = i
    · subst hc
      exact ⟨w, by simp [lookupReport], by simp⟩
    · simp only [List.map_cons, List.mem_cons] at hmem
      rcases hmem with rfl | hmem2
      · exact absurd rfl hc
      · obtain ⟨w2, hw1, hw2⟩ := ih hmem2
        exact ⟨w2, by simp [lookupReport, hc, hw1],
          List.mem_cons_of_mem _ hw2⟩

theorem finalState_complete (env : Env) (ncases : List Nat) (cpu : Nat) :
    (finalState env ncases cpu).sims = [] ∧
    (finalState env ncases cpu).cases = [] ∧
    ((finalState env ncases cpu).reports.map Prod.fst).Perm ncases := by
  have h : LoopInv env ncases cpu (finalState env ncases cpu) :=
    LoopInv_run env ncases cpu _
  have hx := finalState_exited env ncases cpu
  have hdone := h.exit_done hx
  have hcons := LoopInv_conservation env ncases cpu _ h
  have hsims : (finalState env ncases cpu).sims = [] := by
    rw [← List.length_eq_zero]
    omega
  have hcases : (finalState env ncases cpu).cases = [] := by
    rw [← List.length_eq_zero]
    omega
  refine ⟨hsims, hcases, ?_⟩
  have hperm := h.histPerm
  rw [hsims, hcases] at hperm
  simpa using hperm

theorem finalState_report_lookup (env : Env) (n : Nat) (cpu : Nat) (i : Nat)
    (hi : i < n) :
    lookupReport (finalState env (List.range n) cpu).reports i
      = some (reportTestCase (env.outDir i) (env.finalStatus i)).2 := by
  obtain ⟨hs, hc, hperm⟩ := finalState_complete env (List.range n) cpu
  have hmem : i ∈ (finalState env (List.range n) cpu).reports.map Prod.fst := by
    rw [hperm.mem_iff]
    exact List.mem_range.mpr hi
  obtain ⟨w, hw1, hw2⟩ := lookupReport_mem _ i hmem
  have h : LoopInv env (List.range n) cpu (finalState env (List.range n) cpu) :=
    LoopInv_run env (List.range n) cpu _
  have hword := h.reports_word (i, w) hw2
  rw [hw1]
  exact congrArg some hword

-- ---------------------------------------------------------------------------
-- Claim C4
-- ---------------------------------------------------------------------------

/-- Claim C4: the consolidated report written after the loop exits lists the
per-case blocks in the original discovery order of the ski paths — block `i`
is the test name of the `i`-th discovered ski path followed by the
classification of case `i`, which depends only on the case itself, not on the
order in which executions completed — with the summary's outcome-kind lines
sorted lexicographically, and the report ends with the closing delimiter
line. -/
theorem report_discovery_order (env : Env) (version skirtpath : String)
    (suitePath : FsPath) (skiPaths : List FsPath) (cpu : Nat) :
    (finalState env (List.range skiPaths.length) cpu).exited = true ∧
    performReport env version skirtpath suitePath skiPaths cpu
      = "Using " ++ version ++ "\n" ++ "With path " ++ skirtpath ++ "\n"
        ++ "Summary for " ++ toString skiPaths.length ++ " test case(s):\n"
        ++ String.join ((sortedKeys
            (finalState env (List.range skiPaths.length) cpu).statistics).map
          (fun k => "  " ++ k ++ ": "
            ++ toString (lookupCount
              (finalState env (List.range skiPaths.length) cpu).statistics k)
            ++ "\n"))
        ++ "---------------\n"
        ++ String.join ((List.range skiPaths.length).map
          (fun i => testName suitePath (skiPaths.getD i []) ++ ": "
            ++ (reportTestCase (env.outDir i) (env.finalStatus i)).2 ++ "\n"))
        ++ "---------------\n" ∧
    List.Sorted (fun a b : String => a ≤ b)
      (sortedKeys (finalState env (List.range skiPaths.length) cpu).statistics) ∧
    (∃ pre : String, performReport env version skirtpath suitePath skiPaths cpu
      = pre ++ "---------------\n") := by
  have htot : (finalState env (List.range skiPaths.length) cpu).numTotal
      = skiPaths.length := by
    have h : LoopInv env (List.range skiPaths.length) cpu
        (finalState env (List.range skiPaths.length) cpu) :=
      LoopInv_run env (List.range skiPaths.length) cpu _
    rw [h.total_eq, List.length_range]
  have hmap : (List.range skiPaths.length).map
        (fun i => testName suitePath (skiPaths.getD i []) ++ ": "
          ++ ((lookupReport
              (finalState env (List.range skiPaths.length) cpu).reports i).getD "")
          ++ "\n")
      = (List.range skiPaths.length).map
        (fun i => testName suitePath (skiPaths.getD i []) ++ ": "
          ++ (reportTestCase (env.outDir i) (env.finalStatus i)).2 ++ "\n") := by
    refine mapCongrMem _ _ _ (fun i hi => ?_)
    rw [finalState_report_lookup env skiPaths.length cpu i (List.mem_range.mp hi)]
    rfl
  have heq : performReport env version skirtpath suitePath skiPaths cpu
      = "Using " ++ version ++ "\n" ++ "With path " ++ skirtpath ++ "\n"
        ++ "Summary for " ++ toString skiPaths.length ++ " test case(s):\n"
        ++ String.join ((sortedKeys
            (finalState env (List.range skiPaths.length) cpu).statistics).map
          (fun k => "  " ++ k ++ ": "
            ++ toString (lookupCount
              (finalState env (List.range skiPaths.length) cpu).statistics k)
            ++ "\n"))
        ++ "---------------\n"
        ++ String.join ((List.range skiPaths.length).map
          (fun i => testName suitePath (skiPaths.getD i []) ++ ": "
            ++ (reportTestCase (env.outDir i) (env.finalStatus i)).2 ++ "\n"))
        ++ "---------------\n" := by
    rw [performReport, consolidatedReport, htot, hmap]
  exact ⟨finalState_exited env _ cpu, heq,
    List.sorted_insertionSort _ _, ⟨_, heq⟩⟩
